import Mathlib

/-!
Verification of the Andromeda food-detection application
(`streamlit_andromeda.py`) against its design specification.

The Python source is shallowly embedded below. Conventions:

* A frame / image region is a list of rows, each row a list of pixels,
  each pixel a list of integer channel intensities (three channels, 0-255,
  for the BGR frames the program handles).
* Python floats are modelled as rationals (`ℚ`); the properties at stake
  (shape, ranges, threshold comparisons, 2-decimal formatting of the exact
  values used) do not depend on binary rounding.
* External library primitives that are not part of this repository
  (the trained Keras model, the OpenCV segmentation backend
  `cvtColor → GaussianBlur → threshold(OTSU) → findContours → boundingRect`,
  OpenCV text metrics, and pixel-level rasterisation of drawing calls) are
  taken as function parameters, so every theorem holds for every behaviour
  of those primitives.  `cv2.resize` is modelled executably by
  nearest-neighbour sampling, which realises the two contractual facts the
  code relies on: the output has exactly the target shape, and every output
  pixel is one of the input pixels (bilinear interpolation likewise keeps
  values inside the input range).
* In-place mutation by the OpenCV drawing calls is made explicit: the
  renderer is embedded as a trace of drawing commands, each tagged with the
  buffer (the caller's array or the copy) it is applied to, and a two-buffer
  state records what each call mutates.
-/

namespace Andromeda

/-- A pixel: the list of integer channel intensities of one image sample
(three entries for the BGR frames the program works with). -/
abbrev Pixel := List ℕ

/-- A frame or image region: rows of pixels (`numpy` array of shape
height × width × channels with integer intensities 0-255). -/
abbrev Image := List (List Pixel)

/-- A normalized image: rows of pixels with rational channel values,
as produced by the `astype("float32") / 255.0` step. -/
abbrev ScaledImage := List (List (List ℚ))

/-- A batched tensor, the model-input shape `(1, 224, 224, 3)` produced by
`np.expand_dims(..., axis=0)`. -/
abbrev Tensor := List ScaledImage

/-- An axis-aligned rectangle `(x, y, w, h)` in frame pixel coordinates, as
produced by `cv2.boundingRect`. -/
structure Rect where
  x : ℕ
  y : ℕ
  w : ℕ
  h : ℕ
deriving DecidableEq

/-- A detection record, the dictionary
`{'box': (x, y, w, h), 'confidence': ..., 'class': ...}` built by
`detect_objects` (lines 128-132).  The Python key `class` is rendered as
`class_name` because `class` is reserved in Lean. -/
structure Detection where
  box : Rect
  confidence : ℚ
  class_name : String
deriving DecidableEq

/-- Line 47: `CLASS_NAMES = ["karbohidrat", "protein", "buah", "sayur", "minuman"]`. -/
def CLASS_NAMES : List String :=
  ["karbohidrat", "protein", "buah", "sayur", "minuman"]

/-- Line 48: `CONFIDENCE_THRESHOLD = 0.5`. -/
def CONFIDENCE_THRESHOLD : ℚ := 0.5

/-- Lines 18-24: the `DETECTION_COLORS` dictionary mapping class names to
BGR colors, kept as an association list. -/
def DETECTION_COLORS : List (String × (ℕ × ℕ × ℕ)) :=
  [("karbohidrat", (255, 0, 0)),
   ("protein", (0, 255, 0)),
   ("buah", (0, 0, 255)),
   ("sayur", (255, 255, 0)),
   ("minuman", (255, 0, 255))]

/-- Python `dict.get(key, default)` on an association list, used for the
`DETECTION_COLORS.get(class_name, (0, 255, 0))` lookup on line 79. -/
def dictGet {β : Type} (d : List (String × β)) (k : String) (dflt : β) : β :=
  match d.lookup k with
  | some v => v
  | none => dflt

/-- Models `np.max` on a rational vector.  `np.max` raises on an empty array;
the empty case below is unreachable under the classifier contract (output
length 5) assumed wherever this matters. -/
def npMax : List ℚ → ℚ
  | [] => 0
  | x :: xs => xs.foldl max x

/-- Scanning helper for `npArgmax`: `best` is the index of the first maximum
`bv` among the elements already seen, `i` the index of the next element.
The index advances only on a strictly greater element, matching `np.argmax`
returning the first occurrence of the maximum. -/
def argmaxGo : List ℚ → ℕ → ℕ → ℚ → ℕ
  | [], _, best, _ => best
  | x :: xs, i, best, bv =>
    if bv < x then argmaxGo xs (i + 1) i x else argmaxGo xs (i + 1) best bv

/-- Models `np.argmax` on a rational vector: index of the first maximal
element (0 on the empty array, unreachable under the classifier contract). -/
def npArgmax : List ℚ → ℕ
  | [] => 0
  | x :: xs => argmaxGo xs 1 0 x

/-- Python / numpy slice `l[a:b]` (with `0 ≤ a ≤ b`): elements from index
`a` up to, but excluding, `b`, clamped to the list. -/
def sliceRange {α : Type} (l : List α) (a b : ℕ) : List α :=
  (l.drop a).take (b - a)

/-- Line 117: the crop `image[y:y+h, x:x+w]` of `detect_objects`. -/
def cropRegion (image : Image) (x y w h : ℕ) : Image :=
  (sliceRange image y (y + h)).map (fun row => sliceRange row x (x + w))

/-- Models `cv2.resize(frame, (tw, th))` by nearest-neighbour sampling:
output pixel `(i, j)` is the input pixel at row `i * height / th`, column
`j * width / tw`.  This realises the resize contract the program relies on:
the result has exactly `th` rows of `tw` pixels, and (on a non-empty input)
every output pixel is one of the input pixels, so channel ranges are
preserved — as they also are under OpenCV's default bilinear interpolation,
whose outputs are convex combinations of input values. -/
def cvResize (frame : Image) (tw th : ℕ) : Image :=
  (List.range th).map (fun i =>
    (List.range tw).map (fun j =>
      let row := frame.getD (i * frame.length / th) []
      row.getD (j * row.length / tw) []))

/-- Lines 50-55: `preprocess_frame` — resize to the `target_size` default
`(224, 224)` (the only size the program ever uses), scale intensities by
`1 / 255`, and add a leading batch dimension with `np.expand_dims`. -/
def preprocess_frame (frame : Image) : Tensor :=
  let processed_frame := cvResize frame 224 224
  let scaled := processed_frame.map (fun row =>
    row.map (fun px => px.map (fun (c : ℕ) => (c : ℚ) / 255)))
  [scaled]

/-- Lines 57-69: `get_region_proposals`.  The chain
`cvtColor → GaussianBlur → threshold(OTSU) → findContours → boundingRect`
consists of OpenCV primitives external to this repository; `backend image`
stands for the list of bounding rectangles it yields for `image`, in
discovery order.  The repository's own code is the minimum-size filter
`if w > 50 and h > 50` (line 67) applied to that list. -/
def get_region_proposals (image : Image) (backend : Image → List Rect) : List Rect :=
  (backend image).filter (fun r => 50 < r.w && 50 < r.h)

/-- One classifier call of the detection loop (lines 117-123): crop the
frame to the region, preprocess, and query the model
(`model.predict(processed_region, verbose=0)[0]`, modelled as the
black-box function `model`). -/
def regionPredictions (image : Image) (model : Tensor → List ℚ) (r : Rect) : List ℚ :=
  model (preprocess_frame (cropRegion image r.x r.y r.w r.h))

/-- The `for x, y, w, h in regions` loop of `detect_objects`
(lines 115-132): per region, take the prediction vector, let `confidence`
be its maximum, and append a detection exactly when
`confidence >= CONFIDENCE_THRESHOLD`, with the class name indexed by
`np.argmax`. -/
def detectLoop (image : Image) (model : Tensor → List ℚ) : List Rect → List Detection
  | [] => []
  | r :: rs =>
    let predictions := regionPredictions image model r
    let confidence := npMax predictions
    if CONFIDENCE_THRESHOLD ≤ confidence then
      { box := r, confidence := confidence,
        class_name := CLASS_NAMES.getD (npArgmax predictions) "" } :: detectLoop image model rs
    else detectLoop image model rs

/-- Lines 109-134: `detect_objects` — run the region proposer on the frame
and fold the per-region classify-and-filter loop over the proposals in
discovery order.  (Line 111 binds `height, width` but never uses them.) -/
def detect_objects (image : Image) (backend : Image → List Rect)
    (model : Tensor → List ℚ) : List Detection :=
  detectLoop image model (get_region_proposals image backend)

/-- Indicates which array a drawing call is applied to: the caller's input
frame (`image`) or the working copy `image_with_boxes` made on line 73. -/
inductive Buffer where
  | input
  | working
deriving DecidableEq

/-- Nearest representable value of CPython's round-half-to-even used by
float formatting, at the exact rational being formatted. -/
def roundHalfEven (q : ℚ) : ℤ :=
  let n := ⌊q⌋
  if q - n < 1 / 2 then n
  else if (1 / 2 : ℚ) < q - n then n + 1
  else if n % 2 = 0 then n else n + 1

/-- Models the Python format specifier `:.2f` (line 85) on the rational
standing for the float: the value rounded to hundredths, printed with two
fractional digits. -/
def format2 (q : ℚ) : String :=
  let n := roundHalfEven (100 * q)
  let sgn := if n < 0 then "-" else ""
  let a := n.natAbs
  sgn ++ toString (a / 100) ++ "." ++
    (if a % 100 < 10 then "0" else "") ++ toString (a % 100)

/-- Value of the OpenCV constant `cv2.FONT_HERSHEY_SIMPLEX`. -/
def FONT_HERSHEY_SIMPLEX : ℕ := 0

/-- One OpenCV drawing call issued by `draw_detection_boxes`, recorded with
the buffer it mutates and all its arguments.  Coordinates are integers
(label coordinates such as `y - label_h - 10` may be negative); a `-1`
thickness is OpenCV's filled rectangle. -/
inductive DrawCmd where
  | rectangle (target : Buffer) (pt1 pt2 : ℤ × ℤ) (color : ℕ × ℕ × ℕ) (thickness : ℤ)
  | putText (target : Buffer) (text : String) (org : ℤ × ℤ) (fontFace : ℕ)
      (fontScale : ℚ) (color : ℕ × ℕ × ℕ) (thickness : ℤ)
deriving DecidableEq

/-- The buffer a drawing call is applied to (its first argument in the
Python source). -/
def cmdTarget : DrawCmd → Buffer
  | DrawCmd.rectangle t _ _ _ _ => t
  | DrawCmd.putText t _ _ _ _ _ _ => t

/-- The three drawing calls issued for one detection by the loop body of
`draw_detection_boxes` (lines 75-105): the 2-pixel bounding box in the
class color from `DETECTION_COLORS.get(class_name, (0, 255, 0))`, the
filled (`-1`) label background sized by `cv2.getTextSize` above the box's
top-left corner, and the white label text
`f"{class_name}: {confidence:.2f}"` at `(x, y - 5)`.  Every call passes
`image_with_boxes`, the copy made on line 73 — never the input frame.
The OpenCV text metric `cv2.getTextSize` is the external parameter
`getTextSize`, returning `((label_w, label_h), baseline)`. -/
def detectionCmds (getTextSize : String → ℕ → ℚ → ℤ → (ℤ × ℤ) × ℤ)
    (det : Detection) : List DrawCmd :=
  let x : ℤ := det.box.x
  let y : ℤ := det.box.y
  let w : ℤ := det.box.w
  let h : ℤ := det.box.h
  let color := dictGet DETECTION_COLORS det.class_name (0, 255, 0)
  let label := det.class_name ++ ": " ++ format2 det.confidence
  let ts := getTextSize label FONT_HERSHEY_SIMPLEX (1 / 2) 2
  [DrawCmd.rectangle Buffer.working (x, y) (x + w, y + h) color 2,
   DrawCmd.rectangle Buffer.working (x, y - ts.1.2 - 10) (x + ts.1.1, y) color (-1),
   DrawCmd.putText Buffer.working label (x, y - 5) FONT_HERSHEY_SIMPLEX (1 / 2)
     (255, 255, 255) 2]

/-- The full sequence of drawing calls issued by the
`for det in detections` loop of `draw_detection_boxes`, in program order. -/
def draw_detection_boxes_cmds (getTextSize : String → ℕ → ℚ → ℤ → (ℤ × ℤ) × ℤ)
    (detections : List Detection) : List DrawCmd :=
  detections.flatMap (detectionCmds getTextSize)

/-- The two numpy arrays alive inside `draw_detection_boxes`: the caller's
`image` and the copy `image_with_boxes = image.copy()` (line 73). -/
structure DrawState where
  image : Image
  image_with_boxes : Image

/-- Executes one OpenCV drawing call against the two-buffer state: the call
mutates, in place, exactly the array it is passed.  `render` is the
external pixel-level rasterisation of the call. -/
def applyCmd (render : DrawCmd → Image → Image) (s : DrawState) (c : DrawCmd) :
    DrawState :=
  match cmdTarget c with
  | Buffer.input => { s with image := render c s.image }
  | Buffer.working => { s with image_with_boxes := render c s.image_with_boxes }

/-- Lines 71-107: `draw_detection_boxes` — copy the input frame, execute
every drawing call of the detection loop against the buffers, and return
the copy.  The result pairs the caller's `image` buffer as it stands after
the call with the returned `image_with_boxes`. -/
def draw_detection_boxes (render : DrawCmd → Image → Image)
    (getTextSize : String → ℕ → ℚ → ℤ → (ℤ × ℤ) × ℤ)
    (image : Image) (detections : List Detection) : Image × Image :=
  let s := (draw_detection_boxes_cmds getTextSize detections).foldl
    (applyCmd render) { image := image, image_with_boxes := image }
  (s.image, s.image_with_boxes)

/-- Observable boundary events of the Live Camera page (lines 194-226),
in program order: user-visible error messages, camera handle operations,
frame reads, detection-pipeline and renderer calls, frame display, and the
100 ms delay. -/
inductive Ev where
  | errorMsg (msg : String)
  | acquireCamera
  | readFrame
  | detectCall
  | drawCall
  | displayFrame
  | sleepDelay
  | releaseCamera
deriving DecidableEq

/-- Lines 37-44: `load_detection_model`.  `loadModel` stands for the
external `tensorflow.keras.models.load_model('./model/model.h5')` call:
`Except.ok` a model handle, or `Except.error` the message of the exception
raised when the artifact is missing or fails to deserialize (the spec's
ModelLoadError).  The function catches the exception, shows
`st.error(f"Error loading model: {e}")`, and returns `None`; the pair
returned here is (returned value, error messages displayed). -/
def load_detection_model {α : Type} (loadModel : Except String α) :
    Option α × List String :=
  match loadModel with
  | Except.ok m => (some m, [])
  | Except.error e => (none, ["Error loading model: " ++ e])

/-- Lines 205-226: the live-capture loop.  Each poll is a pair
`(run, ret)`: the externally controlled checkbox flag as observed by the
`while run:` test (the hosting UI's rerun-on-interaction model lets it
change between iterations), and the success flag `ret` of
`camera.read()`.  A finite poll list models one terminating execution;
exhausting it stands for the flag having turned false.  On `ret` false the
loop shows `st.error("Failed to access camera")` and breaks; after the
loop, line 226 always runs `camera.release()`. -/
def live_loop : List (Bool × Bool) → List Ev
  | [] => [Ev.releaseCamera]
  | (run, ret) :: rest =>
    if run then
      if ret then
        Ev.readFrame :: Ev.detectCall :: Ev.drawCall :: Ev.displayFrame ::
          Ev.sleepDelay :: live_loop rest
      else
        [Ev.readFrame, Ev.errorMsg ("Failed to access camera"), Ev.releaseCamera]
    else [Ev.releaseCamera]

/-- Lines 194-226: the Live Camera page.  Load the model; if that yields
`None`, show `st.error("Failed to load model. Please check the model
file.")` (line 199) and do nothing else; otherwise open the camera with
`cv2.VideoCapture(0)` and enter the live-capture loop. -/
def live_camera_page {α : Type} (loadModel : Except String α)
    (polls : List (Bool × Bool)) : List Ev :=
  match load_detection_model loadModel with
  | (none, msgs) =>
      msgs.map Ev.errorMsg ++
        [Ev.errorMsg ("Failed to load model. Please check the model file.")]
  | (some _, msgs) =>
      msgs.map Ev.errorMsg ++ (Ev.acquireCamera :: live_loop polls)

/-! ## Helper lemmas about the detection loop -/

/-- Every detection produced by the per-region loop passes the confidence
filter of line 126. -/
lemma detectLoop_confidence (image : Image) (model : Tensor → List ℚ) :
    ∀ rs, ∀ d ∈ detectLoop image model rs, CONFIDENCE_THRESHOLD ≤ d.confidence := by
  intro rs
  induction rs with
  | nil => simp [detectLoop]
  | cons r rs ih =>
    intro d hd
    simp only [detectLoop] at hd
    by_cases hc : CONFIDENCE_THRESHOLD ≤ npMax (regionPredictions image model r)
    · rw [if_pos hc] at hd
      rcases List.mem_cons.1 hd with h1 | h2
      · subst h1; exact hc
      · exact ih d h2
    · rw [if_neg hc] at hd
      exact ih d hd

/-- The boxes of the loop's detections form an order-preserving
subsequence of the region list it iterates over. -/
lemma detectLoop_boxes_sublist (image : Image) (model : Tensor → List ℚ) :
    ∀ rs, List.Sublist ((detectLoop image model rs).map Detection.box) rs := by
  intro rs
  induction rs with
  | nil => simp [detectLoop]
  | cons r rs ih =>
    simp only [detectLoop]
    by_cases hc : CONFIDENCE_THRESHOLD ≤ npMax (regionPredictions image model r)
    · rw [if_pos hc]
      simpa using List.Sublist.cons₂ r ih
    · rw [if_neg hc]
      exact List.Sublist.cons r ih

/-- The loop is pointwise-determined by the classifier's input/output
behaviour. -/
lemma detectLoop_congr (image : Image) (model model2 : Tensor → List ℚ)
    (hm : ∀ t, model t = model2 t) :
    ∀ rs, detectLoop image model rs = detectLoop image model2 rs := by
  intro rs
  induction rs with
  | nil => rfl
  | cons r rs ih =>
    simp only [detectLoop, regionPredictions, hm, ih]

/-- The scan of `argmaxGo` never yields an index at or beyond the end of
the whole vector. -/
lemma argmaxGo_lt (xs : List ℚ) :
    ∀ i best bv, best < i → argmaxGo xs i best bv < i + xs.length := by
  induction xs with
  | nil =>
    intro i best bv h
    simpa [argmaxGo] using h
  | cons x xs ih =>
    intro i best bv h
    simp only [argmaxGo, List.length_cons]
    by_cases hc : bv < x
    · rw [if_pos hc]
      have := ih (i + 1) i x (Nat.lt_succ_self i)
      omega
    · rw [if_neg hc]
      have := ih (i + 1) best bv (Nat.lt_succ_of_lt h)
      omega

/-- On a non-empty vector, `np.argmax` returns an in-range index. -/
lemma npArgmax_lt_length : ∀ l : List ℚ, l ≠ [] → npArgmax l < l.length := by
  intro l hl
  match l with
  | [] => exact absurd rfl hl
  | x :: xs =>
    simp only [npArgmax, List.length_cons]
    have := argmaxGo_lt xs 1 0 x (by omega)
    omega

/-- When the classifier honours its length-5 contract, every emitted class
name is one of the five entries of `CLASS_NAMES`. -/
lemma detectLoop_class_mem (image : Image) (model : Tensor → List ℚ)
    (hlen : ∀ t, (model t).length = 5) :
    ∀ rs, ∀ d ∈ detectLoop image model rs, d.class_name ∈ CLASS_NAMES := by
  intro rs
  induction rs with
  | nil => simp [detectLoop]
  | cons r rs ih =>
    intro d hd
    simp only [detectLoop] at hd
    by_cases hc : CONFIDENCE_THRESHOLD ≤ npMax (regionPredictions image model r)
    · rw [if_pos hc] at hd
      rcases List.mem_cons.1 hd with h1 | h2
      · subst h1
        have hne : regionPredictions image model r ≠ [] := by
          intro habs
          have := hlen (preprocess_frame (cropRegion image r.x r.y r.w r.h))
          rw [regionPredictions] at habs
          rw [habs] at this
          simp at this
        have hidx : npArgmax (regionPredictions image model r) < CLASS_NAMES.length := by
          have h5 : (regionPredictions image model r).length = 5 := hlen _
          have := npArgmax_lt_length _ hne
          rw [h5] at this
          simpa [CLASS_NAMES] using this
        have : CLASS_NAMES.getD (npArgmax (regionPredictions image model r)) "" =
            CLASS_NAMES[npArgmax (regionPredictions image model r)] :=
          List.getD_eq_getElem CLASS_NAMES "" hidx
        simp only [this]
        exact List.getElem_mem hidx
      · exact ih d h2
    · rw [if_neg hc] at hd
      exact ih d hd

/-- An association-list lookup misses exactly when the key is absent from
the key column, specialised to the direction the fallback lemma needs. -/
lemma lookup_eq_none_of_not_mem_keys {β : Type} (d : List (String × β)) (k : String)
    (h : k ∉ d.map Prod.fst) : d.lookup k = none := by
  rw [List.lookup_eq_none_iff]
  intro a ha
  have hfst : a.1 ∈ d.map Prod.fst := List.mem_map_of_mem Prod.fst ha
  simp only [bne_iff_ne, ne_eq]
  intro heq
  exact h (heq ▸ hfst)

/-! ## Concrete inputs for the witnesses -/

/-- A 1×1 demonstration frame. -/
def demoImage : Image := [[[0, 0, 0]]]

/-- A segmentation backend yielding one 60×60 bounding rectangle. -/
def demoBackend : Image → List Rect := fun _ => [⟨0, 0, 60, 60⟩]

/-- A backend yielding two rectangles, one below the size threshold. -/
def demoBackend2 : Image → List Rect := fun _ => [⟨0, 0, 60, 60⟩, ⟨5, 5, 40, 80⟩]

/-- The constant classifier stub of the specification's scenario. -/
def demoModel : Tensor → List ℚ := fun _ => [0.9, 0.02, 0.02, 0.02, 0.04]

/-! ## Claim theorems -/

/-- C1: every Detection in the sequence returned by `detect_objects` has
confidence at least `CONFIDENCE_THRESHOLD` (0.5); no detection below the
threshold is ever emitted, for every frame, segmentation backend and
classifier. -/
theorem detect_objects_confidence (image : Image) (backend : Image → List Rect)
    (model : Tensor → List ℚ) :
    ∀ d ∈ detect_objects image backend model, CONFIDENCE_THRESHOLD ≤ d.confidence :=
  detectLoop_confidence image model (get_region_proposals image backend)

theorem detect_objects_confidence_witness :
    CONFIDENCE_THRESHOLD ≤ (Detection.mk ⟨0, 0, 60, 60⟩ 0.9 "karbohidrat").confidence :=
  detect_objects_confidence demoImage demoBackend demoModel
    (Detection.mk ⟨0, 0, 60, 60⟩ 0.9 "karbohidrat")
    (by norm_num [detect_objects, get_region_proposals, detectLoop, regionPredictions,
      demoImage, demoBackend, demoModel, npMax, npArgmax, argmaxGo, max_def,
      CLASS_NAMES, CONFIDENCE_THRESHOLD])

/-- C2: every rectangle returned by `get_region_proposals` satisfies
`width > 50` and `height > 50`; a rectangle failing the minimum-size filter
of line 67 is never returned. -/
theorem get_region_proposals_min_size (image : Image) (backend : Image → List Rect) :
    ∀ r ∈ get_region_proposals image backend, 50 < r.w ∧ 50 < r.h := by
  intro r hr
  have h := (List.mem_filter.1 hr).2
  simp only [Bool.and_eq_true, decide_eq_true_eq] at h
  exact h

theorem get_region_proposals_min_size_witness :
    50 < (Rect.mk 0 0 60 60).w ∧ 50 < (Rect.mk 0 0 60 60).h :=
  get_region_proposals_min_size demoImage demoBackend2 ⟨0, 0, 60, 60⟩ (by decide)

/-- C5: `detect_objects` is deterministic — any two classifiers with the
same input/output behaviour on the same frame yield the same detection
sequence — and order-stable: the boxes of the detections form an
order-preserving subsequence of the proposal list in the order the Region
Proposer discovered the regions. -/
theorem detect_objects_deterministic (image : Image) (backend : Image → List Rect)
    (model model2 : Tensor → List ℚ) (hm : ∀ t, model t = model2 t) :
    detect_objects image backend model = detect_objects image backend model2 ∧
    List.Sublist ((detect_objects image backend model).map Detection.box)
      (get_region_proposals image backend) :=
  ⟨detectLoop_congr image model model2 hm (get_region_proposals image backend),
   detectLoop_boxes_sublist image model (get_region_proposals image backend)⟩

theorem detect_objects_deterministic_witness :
    detect_objects demoImage demoBackend2 demoModel =
      detect_objects demoImage demoBackend2 demoModel ∧
    List.Sublist ((detect_objects demoImage demoBackend2 demoModel).map Detection.box)
      (get_region_proposals demoImage demoBackend2) :=
  detect_objects_deterministic demoImage demoBackend2 demoModel demoModel (fun _ => rfl)

/-- C8: when the classifier constantly returns
`[0.9, 0.02, 0.02, 0.02, 0.04]`, every detection emitted by
`detect_objects` carries confidence 0.9 and the first entry of the fixed
class enumeration, `CLASS_NAMES[0] = "karbohidrat"` (the carbohydrate
class), for every frame and backend. -/
theorem detect_objects_constant_scores (image : Image) (backend : Image → List Rect)
    (model : Tensor → List ℚ)
    (hm : ∀ t, model t = [0.9, 0.02, 0.02, 0.02, 0.04]) :
    ∀ d ∈ detect_objects image backend model,
      d.class_name = "karbohidrat" ∧ d.confidence = 0.9 := by
  have hmax : npMax [(0.9 : ℚ), 0.02, 0.02, 0.02, 0.04] = 0.9 := by
    norm_num [npMax, max_def]
  have harg : npArgmax [(0.9 : ℚ), 0.02, 0.02, 0.02, 0.04] = 0 := by
    norm_num [npArgmax, argmaxGo]
  rw [detect_objects]
  generalize get_region_proposals image backend = rs
  induction rs with
  | nil => simp [detectLoop]
  | cons r rs ih =>
    intro d hd
    simp only [detectLoop, regionPredictions, hm, hmax, harg] at hd
    rw [if_pos (by norm_num [CONFIDENCE_THRESHOLD])] at hd
    rcases List.mem_cons.1 hd with h1 | h2
    · subst h1
      exact ⟨by simp [CLASS_NAMES], rfl⟩
    · exact ih d h2

theorem detect_objects_constant_scores_witness :
    (Detection.mk ⟨0, 0, 60, 60⟩ 0.9 "karbohidrat").class_name = "karbohidrat" ∧
    (Detection.mk ⟨0, 0, 60, 60⟩ 0.9 "karbohidrat").confidence = 0.9 :=
  detect_objects_constant_scores demoImage demoBackend demoModel (fun _ => rfl)
    (Detection.mk ⟨0, 0, 60, 60⟩ 0.9 "karbohidrat")
    (by norm_num [detect_objects, get_region_proposals, detectLoop, regionPredictions,
      demoImage, demoBackend, demoModel, npMax, npArgmax, argmaxGo, max_def,
      CLASS_NAMES, CONFIDENCE_THRESHOLD])

/-- C10: under the classifier's length-5 output contract, the boxes of the
detections form an order-preserving subsequence (with multiplicity) of the
proposal list — so each proposed region yields at most one detection and
every detection's box is one of the proposed rectangles — the number of
detections never exceeds the number of proposals, and every detection's
class is one of the five names of the fixed enumeration. -/
theorem detect_objects_boxes_from_regions (image : Image)
    (backend : Image → List Rect) (model : Tensor → List ℚ)
    (hlen : ∀ t, (model t).length = 5) :
    List.Sublist ((detect_objects image backend model).map Detection.box)
      (get_region_proposals image backend) ∧
    (detect_objects image backend model).length ≤
      (get_region_proposals image backend).length ∧
    ∀ d ∈ detect_objects image backend model,
      d.box ∈ get_region_proposals image backend ∧ d.class_name ∈ CLASS_NAMES := by
  have hsub := detectLoop_boxes_sublist image model (get_region_proposals image backend)
  refine ⟨hsub, ?_, ?_⟩
  · have := hsub.length_le
    simpa [detect_objects] using this
  · intro d hd
    refine ⟨hsub.subset (List.mem_map_of_mem Detection.box hd), ?_⟩
    exact detectLoop_class_mem image model hlen (get_region_proposals image backend) d hd

theorem detect_objects_boxes_from_regions_witness :
    List.Sublist ((detect_objects demoImage demoBackend demoModel).map Detection.box)
      (get_region_proposals demoImage demoBackend) :=
  (detect_objects_boxes_from_regions demoImage demoBackend demoModel (fun _ => rfl)).1

/-- On a frame with at least one row and no empty row, every pixel of the
resized frame is one of the input pixels. -/
lemma mem_cvResize_pixel (frame : Image) (hne : frame ≠ [])
    (hrow : ∀ row ∈ frame, row ≠ []) :
    ∀ r ∈ cvResize frame 224 224, ∀ px ∈ r, ∃ row ∈ frame, px ∈ row := by
  intro r hr px hpx
  simp only [cvResize, List.mem_map, List.mem_range] at hr
  obtain ⟨i, hi, rfl⟩ := hr
  simp only [List.mem_map, List.mem_range] at hpx
  obtain ⟨j, hj, rfl⟩ := hpx
  have hL : 0 < frame.length := List.length_pos.2 hne
  have hidx : i * frame.length / 224 < frame.length := by
    rw [Nat.div_lt_iff_lt_mul (by norm_num)]
    calc i * frame.length < 224 * frame.length :=
          mul_lt_mul_of_pos_right hi hL
      _ = frame.length * 224 := Nat.mul_comm _ _
  have hget : frame.getD (i * frame.length / 224) [] =
      frame[i * frame.length / 224] := List.getD_eq_getElem frame [] hidx
  have hrowmem : frame[i * frame.length / 224] ∈ frame := List.getElem_mem hidx
  have hrL : 0 < frame[i * frame.length / 224].length :=
    List.length_pos.2 (hrow _ hrowmem)
  rw [hget]
  have hjdx : j * frame[i * frame.length / 224].length / 224 <
      frame[i * frame.length / 224].length := by
    rw [Nat.div_lt_iff_lt_mul (by norm_num)]
    calc j * frame[i * frame.length / 224].length
        < 224 * frame[i * frame.length / 224].length :=
          mul_lt_mul_of_pos_right hj hrL
      _ = frame[i * frame.length / 224].length * 224 := Nat.mul_comm _ _
  rw [List.getD_eq_getElem _ [] hjdx]
  exact ⟨frame[i * frame.length / 224], hrowmem, List.getElem_mem hjdx⟩

/-- C3: for every non-empty input region (at least one row, every row
non-empty, three integer channels 0-255 per pixel), `preprocess_frame`
succeeds and returns a tensor of shape exactly (1, 224, 224, 3) all of
whose values lie in [0, 1]. -/
theorem preprocess_frame_shape (frame : Image)
    (hne : frame ≠ []) (hrow : ∀ row ∈ frame, row ≠ [])
    (hpix : ∀ row ∈ frame, ∀ px ∈ row, px.length = 3 ∧ ∀ c ∈ px, c ≤ 255) :
    (preprocess_frame frame).length = 1 ∧
    ∀ t ∈ preprocess_frame frame, t.length = 224 ∧
      ∀ row ∈ t, row.length = 224 ∧
        ∀ px ∈ row, px.length = 3 ∧ ∀ v ∈ px, 0 ≤ v ∧ v ≤ 1 := by
  refine ⟨rfl, ?_⟩
  intro t ht
  have hps : preprocess_frame frame = [(cvResize frame 224 224).map
      (fun (row : List Pixel) => row.map
        (fun (px : Pixel) => px.map (fun (c : ℕ) => (c : ℚ) / 255)))] := rfl
  rw [hps, List.mem_singleton] at ht
  subst ht
  refine ⟨by simp [cvResize], ?_⟩
  intro row hrm
  obtain ⟨r, hr, rfl⟩ := List.mem_map.1 hrm
  have hr224 : r.length = 224 := by
    simp only [cvResize, List.mem_map, List.mem_range] at hr
    obtain ⟨i, hi, rfl⟩ := hr
    simp
  refine ⟨by simp [hr224], ?_⟩
  intro px hpxm
  obtain ⟨p, hp, rfl⟩ := List.mem_map.1 hpxm
  obtain ⟨orow, horow, hpo⟩ := mem_cvResize_pixel frame hne hrow r hr p hp
  obtain ⟨hlen3, hch⟩ := hpix orow horow p hpo
  refine ⟨by simp [hlen3], ?_⟩
  intro v hv
  obtain ⟨c, hc, rfl⟩ := List.mem_map.1 hv
  refine ⟨by positivity, ?_⟩
  rw [div_le_one (by norm_num)]
  exact_mod_cast hch c hc

theorem preprocess_frame_shape_witness :
    (preprocess_frame [[[0, 0, 0]]]).length = 1 :=
  (preprocess_frame_shape [[[0, 0, 0]]] (by simp) (by simp) (by decide)).1

/-- Every drawing call issued by `draw_detection_boxes` targets the working
copy `image_with_boxes`, never the caller's frame. -/
lemma draw_cmds_target_working (getTextSize : String → ℕ → ℚ → ℤ → (ℤ × ℤ) × ℤ)
    (detections : List Detection) :
    ∀ c ∈ draw_detection_boxes_cmds getTextSize detections,
      cmdTarget c = Buffer.working := by
  intro c hc
  simp only [draw_detection_boxes_cmds, List.mem_flatMap] at hc
  obtain ⟨det, _, hcd⟩ := hc
  simp only [detectionCmds, List.mem_cons, List.not_mem_nil, or_false] at hcd
  rcases hcd with rfl | rfl | rfl <;> rfl

/-- Folding calls that all target the working buffer leaves the input
buffer untouched and threads the renders through the working buffer. -/
lemma foldl_working_buffers (render : DrawCmd → Image → Image) :
    ∀ cmds : List DrawCmd, ∀ s : DrawState,
      (∀ c ∈ cmds, cmdTarget c = Buffer.working) →
      (cmds.foldl (applyCmd render) s).image = s.image ∧
      (cmds.foldl (applyCmd render) s).image_with_boxes =
        cmds.foldl (fun img c => render c img) s.image_with_boxes := by
  intro cmds
  induction cmds with
  | nil => exact fun s _ => ⟨rfl, rfl⟩
  | cons c cs ih =>
    intro s h
    have hc := h c (List.mem_cons_self c cs)
    have hstep : applyCmd render s c =
        { s with image_with_boxes := render c s.image_with_boxes } := by
      simp [applyCmd, hc]
    rw [List.foldl_cons, List.foldl_cons, hstep]
    exact ih _ (fun c' hc' => h c' (List.mem_cons_of_mem c hc'))

/-- C4: `draw_detection_boxes` never mutates its input frame — after the
call the caller's buffer holds exactly the original contents, for every
rasteriser, text metric, frame and detection sequence — and the returned
frame is a newly produced copy of the input with all the drawing calls
applied to it. -/
theorem draw_detection_boxes_no_mutation (render : DrawCmd → Image → Image)
    (getTextSize : String → ℕ → ℚ → ℤ → (ℤ × ℤ) × ℤ)
    (image : Image) (detections : List Detection) :
    (draw_detection_boxes render getTextSize image detections).1 = image ∧
    (draw_detection_boxes render getTextSize image detections).2 =
      (draw_detection_boxes_cmds getTextSize detections).foldl
        (fun img c => render c img) image := by
  have h := foldl_working_buffers render (draw_detection_boxes_cmds getTextSize detections)
    { image := image, image_with_boxes := image }
    (draw_cmds_target_working getTextSize detections)
  exact ⟨h.1, h.2⟩

/-- C9: for every rendered detection the drawing calls comprise a
2-pixel-wide rectangle in the class's color from `DETECTION_COLORS`
(falling back to the fixed default (0, 255, 0) when the class name is
absent from the table), a filled label background directly above the box's
top-left corner sized by the text metrics, and white text reading exactly
the class name, a colon-space, and the confidence formatted to two decimal
places. -/
theorem draw_detection_boxes_label_format
    (getTextSize : String → ℕ → ℚ → ℤ → (ℤ × ℤ) × ℤ)
    (detections : List Detection) :
    ∀ det ∈ detections,
      DrawCmd.rectangle Buffer.working ((det.box.x : ℤ), (det.box.y : ℤ))
          ((det.box.x : ℤ) + det.box.w, (det.box.y : ℤ) + det.box.h)
          (dictGet DETECTION_COLORS det.class_name (0, 255, 0)) 2
        ∈ draw_detection_boxes_cmds getTextSize detections ∧
      DrawCmd.rectangle Buffer.working
          ((det.box.x : ℤ),
            (det.box.y : ℤ) - (getTextSize (det.class_name ++ ": " ++ format2 det.confidence)
              FONT_HERSHEY_SIMPLEX (1 / 2) 2).1.2 - 10)
          ((det.box.x : ℤ) + (getTextSize (det.class_name ++ ": " ++ format2 det.confidence)
              FONT_HERSHEY_SIMPLEX (1 / 2) 2).1.1, (det.box.y : ℤ))
          (dictGet DETECTION_COLORS det.class_name (0, 255, 0)) (-1)
        ∈ draw_detection_boxes_cmds getTextSize detections ∧
      DrawCmd.putText Buffer.working (det.class_name ++ ": " ++ format2 det.confidence)
          ((det.box.x : ℤ), (det.box.y : ℤ) - 5) FONT_HERSHEY_SIMPLEX (1 / 2)
          (255, 255, 255) 2
        ∈ draw_detection_boxes_cmds getTextSize detections ∧
      (det.class_name ∉ DETECTION_COLORS.map Prod.fst →
        dictGet DETECTION_COLORS det.class_name (0, 255, 0) = (0, 255, 0)) := by
  intro det hdet
  have hsub : ∀ c ∈ detectionCmds getTextSize det,
      c ∈ draw_detection_boxes_cmds getTextSize detections := by
    intro c hc
    exact List.mem_flatMap.2 ⟨det, hdet, hc⟩
  refine ⟨hsub _ ?_, hsub _ ?_, hsub _ ?_, ?_⟩
  · simp [detectionCmds]
  · simp [detectionCmds]
  · simp [detectionCmds]
  · intro habs
    simp [dictGet, lookup_eq_none_of_not_mem_keys DETECTION_COLORS det.class_name habs]

theorem draw_detection_boxes_label_format_witness :
    DrawCmd.putText Buffer.working ("pizza" ++ ": " ++ format2 0.9)
        ((10 : ℤ), (20 : ℤ) - 5) FONT_HERSHEY_SIMPLEX (1 / 2) (255, 255, 255) 2
      ∈ draw_detection_boxes_cmds (fun _ _ _ _ => ((12, 7), 2))
        [Detection.mk ⟨10, 20, 60, 80⟩ 0.9 "pizza"] :=
  ((draw_detection_boxes_label_format (fun _ _ _ _ => ((12, 7), 2))
      [Detection.mk ⟨10, 20, 60, 80⟩ 0.9 "pizza"]
      (Detection.mk ⟨10, 20, 60, 80⟩ 0.9 "pizza") (by simp)).2.2).1

/-- C6: if the model artifact is missing or fails to deserialize — the
load call raises, the spec's ModelLoadError — then `load_detection_model`
returns no model after surfacing the caught error, the Live Camera page
displays its own error message, no detection call is performed, and the
camera is never even opened, so detection features stay disabled for the
session. -/
theorem live_camera_page_load_failure {α : Type} (loadModel : Except String α)
    (polls : List (Bool × Bool)) (e : String)
    (h : loadModel = Except.error e) :
    live_camera_page loadModel polls =
      [Ev.errorMsg ("Error loading model: " ++ e),
       Ev.errorMsg ("Failed to load model. Please check the model file.")] ∧
    Ev.detectCall ∉ live_camera_page loadModel polls ∧
    Ev.acquireCamera ∉ live_camera_page loadModel polls ∧
    (load_detection_model loadModel).1 = none := by
  subst h
  refine ⟨rfl, ?_, ?_, rfl⟩ <;> simp [live_camera_page, load_detection_model]

theorem live_camera_page_load_failure_witness :
    live_camera_page (Except.error ("model file not found") : Except String Unit) [] =
      [Ev.errorMsg ("Error loading model: " ++ "model file not found"),
       Ev.errorMsg ("Failed to load model. Please check the model file.")] :=
  (live_camera_page_load_failure (Except.error ("model file not found")) []
    ("model file not found") rfl).1

/-- C7: the live-capture loop releases the camera exactly once, as the very
last event, on every exit path (flag observed false, poll list exhausted,
or frame-read failure); and when the very first read fails the loop
surfaces the camera error, performs zero detection calls, and still
releases the device. -/
theorem live_loop_always_releases (polls : List (Bool × Bool)) :
    (∃ l, live_loop polls = l ++ [Ev.releaseCamera] ∧ Ev.releaseCamera ∉ l) ∧
    (∀ rest, polls = (true, false) :: rest →
      live_loop polls =
        [Ev.readFrame, Ev.errorMsg ("Failed to access camera"), Ev.releaseCamera] ∧
      Ev.detectCall ∉ live_loop polls) := by
  constructor
  · induction polls with
    | nil => exact ⟨[], rfl, by simp⟩
    | cons p rest ih =>
      obtain ⟨run, ret⟩ := p
      cases run with
      | false => exact ⟨[], by simp [live_loop], by simp⟩
      | true =>
        cases ret with
        | false =>
          exact ⟨[Ev.readFrame, Ev.errorMsg ("Failed to access camera")],
            by simp [live_loop], by simp⟩
        | true =>
          obtain ⟨l, hl, hnl⟩ := ih
          refine ⟨Ev.readFrame :: Ev.detectCall :: Ev.drawCall :: Ev.displayFrame ::
            Ev.sleepDelay :: l, ?_, ?_⟩
          · simp [live_loop, hl]
          · simp [hnl]
  · intro rest h
    subst h
    exact ⟨by simp [live_loop], by simp [live_loop]⟩

theorem live_loop_always_releases_witness :
    live_loop [(true, false)] =
      [Ev.readFrame, Ev.errorMsg ("Failed to access camera"), Ev.releaseCamera] ∧
    Ev.detectCall ∉ live_loop [(true, false)] :=
  (live_loop_always_releases [(true, false)]).2 [] rfl

end Andromeda
